import Mathlib

/-!
# HoneyNet-CyberDefense — verification of spec claims against the source

Shallow embedding of the mobile client services of the repository
(`GamificationService`, `BlockchainService`, `HoneyNetService`,
`QuantumService`, `SwarmService`) and proofs settling the frozen claims.

Embedding conventions used throughout:
* JavaScript `Date` values are modelled by their epoch-millisecond value
  (`Int`), i.e. by what `getTime()` returns.
* JavaScript numbers are modelled by `ℚ` where fractional values occur and
  by `Int`/`Nat` where the source only ever holds integers.
* Nondeterministic environment reads (`Date.now()`, `Math.random()`) are
  modelled as explicit parameters of the operation that performs them.
* `AsyncStorage` persistence is modelled by the in-memory value that is
  saved; a service operation is a pure function from its state (plus the
  environment parameters) to its new state.
-/

/-! ## GamificationService (src/unnamed/part_000) -/

/-- Model of JavaScript `Math.round`: round half toward positive infinity. -/
def mathRound (q : ℚ) : Int := ⌊q + 1/2⌋

/-- `Achievement` interface of GamificationService. `unlockedAt` is kept as
epoch milliseconds. -/
structure Achievement where
  id : String
  name : String
  description : String
  icon : String
  unlockedAtMs : Int
  rarity : String
  points : Int
deriving DecidableEq

/-- `NFTBadge` interface of GamificationService (attributes omitted: no
claim reads them). -/
structure NFTBadge where
  id : String
  name : String
  description : String
  imageUrl : String
  mintedAtMs : Int
  rarity : String
deriving DecidableEq

/-- `PlayerStats` interface of GamificationService. -/
structure PlayerStats where
  playerId : String
  level : Int
  totalPoints : Int
  threatsDetected : Int
  honeypotsTriggered : Int
  currentLeague : String
  achievements : List Achievement
  nftBadges : List NFTBadge
deriving DecidableEq

/-- The `basePoints` severity table of `calculateThreatPoints`, including
the `|| 10` default for unknown severities (none of the stored values is
falsy, so `||` only fires on a missing key). -/
def basePoints (severity : String) : ℚ :=
  if severity = "low" then 10
  else if severity = "medium" then 25
  else if severity = "high" then 50
  else if severity = "critical" then 100
  else 10

/-- The `typeMultiplier` table of `calculateThreatPoints`, including the
`|| 1.0` default for unknown threat types. -/
def typeMultiplier (threatType : String) : ℚ :=
  if threatType = "malware" then 1.2
  else if threatType = "phishing" then 1.1
  else if threatType = "ddos" then 1.3
  else if threatType = "brute_force" then 1.0
  else if threatType = "sql_injection" then 1.4
  else if threatType = "xss" then 1.1
  else 1.0

/-- `GamificationService.calculateThreatPoints`. The source method reads no
service state and writes none (`this` is never mentioned), which the
embedding reflects by being a plain function of the two arguments. -/
def calculateThreatPoints (threatType severity : String) : Int :=
  mathRound (basePoints severity * typeMultiplier threatType)

/-- Severity table exactly as the claim words it (spec side, for the
refinement comparison with `basePoints`). -/
def claimSeverityBase (severity : String) : ℚ :=
  if severity = "low" then 10
  else if severity = "medium" then 25
  else if severity = "high" then 50
  else if severity = "critical" then 100
  else 10

/-- Threat-type multiplier table exactly as the claim words it (spec side,
for the refinement comparison with `typeMultiplier`). -/
def claimTypeMultiplier (threatType : String) : ℚ :=
  if threatType = "malware" then 1.2
  else if threatType = "phishing" then 1.1
  else if threatType = "ddos" then 1.3
  else if threatType = "brute_force" then 1.0
  else if threatType = "sql_injection" then 1.4
  else if threatType = "xss" then 1.1
  else 1.0

/-- `GamificationService.unlockAchievement`. `this.playerStats` may be
`null`, hence the `Option`; when it is `null` the method returns without
touching anything. -/
def unlockAchievement (stats : Option PlayerStats) (a : Achievement) :
    Option PlayerStats :=
  match stats with
  | none => none
  | some ps =>
    if ps.achievements.any (fun x => x.id == a.id) then some ps
    else some { ps with achievements := ps.achievements ++ [a],
                        totalPoints := ps.totalPoints + a.points }

/-! ## BlockchainService (src/client/mobile/src/services/BlockchainService.ts) -/

/-- `ThreatRecord` interface. `metadata : Record<string, any>` is modelled
as an ordered list of string key/value pairs (the only shape the mobile
client ever stores there); `timestamp` is epoch milliseconds. -/
structure ThreatRecord where
  id : String
  threatType : String
  severity : String
  sourceIp : String
  targetIp : String
  timestampMs : Int
  signature : String
  metadata : List (String × String)
deriving DecidableEq

/-- `Block` interface. -/
structure Block where
  blockNumber : Int
  blockHash : String
  previousHash : String
  timestampMs : Int
  threatRecords : List ThreatRecord
  minerId : String
  nonce : Int
  merkleRoot : String
deriving DecidableEq

/-- One character of `JSON.stringify` string escaping (quote and backslash;
control characters never occur in the values this model is evaluated at). -/
def jsonEscapeChar (c : Char) : String :=
  if c = '"' then "\\\""
  else if c = '\\' then "\\\\"
  else String.singleton c

/-- `JSON.stringify` of a string value. -/
def jsonStr (s : String) : String :=
  "\"" ++ String.join (s.data.map jsonEscapeChar) ++ "\""

/-- `JSON.stringify` of the `metadata` object (keys in insertion order). -/
def jsonMetadata (m : List (String × String)) : String :=
  "\x7b" ++ String.intercalate ","
      (m.map (fun kv => jsonStr kv.1 ++ ":" ++ jsonStr kv.2)) ++ "\x7d"

/-- `JSON.stringify` of one `ThreatRecord`, fields in the insertion order
used by `submitThreatRecord` (`id`, the spread threat data, `timestamp`).
The `Date` field serializes through its modelled epoch-millisecond value. -/
def jsonThreatRecord (r : ThreatRecord) : String :=
  "\x7b\"id\":" ++ jsonStr r.id
    ++ ",\"threatType\":" ++ jsonStr r.threatType
    ++ ",\"severity\":" ++ jsonStr r.severity
    ++ ",\"sourceIp\":" ++ jsonStr r.sourceIp
    ++ ",\"targetIp\":" ++ jsonStr r.targetIp
    ++ ",\"signature\":" ++ jsonStr r.signature
    ++ ",\"metadata\":" ++ jsonMetadata r.metadata
    ++ ",\"timestamp\":" ++ toString r.timestampMs
    ++ "\x7d"

/-- `JSON.stringify` of a `ThreatRecord` array. -/
def jsonThreatRecords (rs : List ThreatRecord) : String :=
  "[" ++ String.intercalate "," (rs.map jsonThreatRecord) ++ "]"

/-- JavaScript `ToInt32`: wrap an integer to the signed 32-bit range, as
`hash & hash` (and the `<<` operand coercion) does in the source. -/
def toInt32 (x : Int) : Int := (x + 2 ^ 31) % 2 ^ 32 - 2 ^ 31

/-- One iteration of the hash loop of `calculateBlockHash`:
`hash = ((hash << 5) - hash) + charCode; hash = hash & hash`. The running
hash is already a 32-bit integer when the shift coerces it, so the shift is
a 32-bit wrap of `hash * 32`; the subtraction and addition are exact double
arithmetic (well below 2^53), and the final `&` wraps back to 32 bits. -/
def jsHashStep (h : Int) (c : Char) : Int :=
  toInt32 (toInt32 (h * 32) - h + c.toNat)

/-- The full hash loop of `calculateBlockHash` over a data string. -/
def jsHashString (s : String) : Int := s.data.foldl jsHashStep 0

/-- `Number.prototype.toString(16)` for the (integral) hash value:
lowercase hex digits, with a leading minus sign for negative values. -/
def jsToHex (i : Int) : String :=
  if i < 0 then "-" ++ String.mk (Nat.toDigits 16 i.natAbs)
  else String.mk (Nat.toDigits 16 i.toNat)

/-- The `blockData` object serialized by `calculateBlockHash`
(`blockNumber`, `previousHash`, `timestamp` via `getTime()`,
`threatRecords`, `nonce`). -/
def blockDataString (b : Block) : String :=
  "\x7b\"blockNumber\":" ++ toString b.blockNumber
    ++ ",\"previousHash\":" ++ jsonStr b.previousHash
    ++ ",\"timestamp\":" ++ toString b.timestampMs
    ++ ",\"threatRecords\":" ++ jsonThreatRecords b.threatRecords
    ++ ",\"nonce\":" ++ toString b.nonce
    ++ "\x7d"

/-- `BlockchainService.calculateBlockHash`. -/
def calculateBlockHash (b : Block) : String :=
  jsToHex (jsHashString (blockDataString b))

/-- The `for (let i = 1; ...)` loop body of `validateChain`, carrying the
previous block: each later block must link to its predecessor's stored
hash and must hash to its own stored hash. -/
def validateFrom (prev : Block) : List Block → Bool
  | [] => true
  | cur :: rest =>
    (cur.previousHash == prev.blockHash)
      && (calculateBlockHash cur == cur.blockHash)
      && validateFrom cur rest

/-- `BlockchainService.validateChain`: the empty chain is valid, and the
loop starts at index 1, so the first block is never checked itself. -/
def validateChain : List Block → Bool
  | [] => true
  | b :: rest => validateFrom b rest

/-- `BlockchainService.mergeChains`: replace the local chain wholesale by
the network chain when the latter is strictly longer and valid. -/
def mergeChains (networkBlocks localChain : List Block) : List Block :=
  if localChain.length < networkBlocks.length then
    if validateChain networkBlocks then networkBlocks else localChain
  else localChain

/-- `BlockchainService.generateThreatId`: built from `Date.now()` and a
random draw (`Math.random().toString(36).substring(2)`, modelled as the
`rand` parameter). It does not read the report at all. -/
def generateThreatId (nowMs : Int) (rand : String) : String :=
  "threat_" ++ toString nowMs ++ "_" ++ rand

/-- The `threatData` argument of `submitThreatRecord`. -/
structure ThreatData where
  threatType : String
  severity : String
  sourceIp : String
  targetIp : String
  signature : String
  metadata : List (String × String)
deriving DecidableEq

/-- The service-level state of `BlockchainServiceClass` that the verified
operations read and write. -/
structure BlockchainState where
  localChain : List Block
  pendingThreatRecords : List ThreatRecord
  isConnected : Bool
  nodeId : String
deriving DecidableEq

/-- `BlockchainService.submitThreatRecord`: build the record (with an id
from `generateThreatId` and the current time), push it onto the pending
list, and return it. Submitting to the network does not alter the local
state. -/
def submitThreatRecord (nowMs : Int) (rand : String) (d : ThreatData)
    (s : BlockchainState) : ThreatRecord × BlockchainState :=
  let record : ThreatRecord :=
    { id := generateThreatId nowMs rand
      threatType := d.threatType
      severity := d.severity
      sourceIp := d.sourceIp
      targetIp := d.targetIp
      timestampMs := nowMs
      signature := d.signature
      metadata := d.metadata }
  (record, { s with pendingThreatRecords := s.pendingThreatRecords ++ [record] })

/-- `BlockchainService.submitPendingRecords`. `ok r = true` models a
`submitToNetwork` call for `r` that returns, `ok r = false` one that
throws (the catch branch keeps the record pending). The loop iterates over
a snapshot of the pending list and, after each successful submission,
filters that record id out of the live pending list. -/
def submitPendingRecords (ok : ThreatRecord → Bool) (s : BlockchainState) :
    BlockchainState :=
  if !s.isConnected || s.pendingThreatRecords.isEmpty then s
  else
    { s with pendingThreatRecords :=
        (s.pendingThreatRecords.foldl
          (fun cur record =>
            if ok record then cur.filter (fun r => !(r.id == record.id)) else cur)
          s.pendingThreatRecords) }

/-! ## HoneyNetService (src/client/mobile/src/services/HoneyNetService.ts) -/

/-- `ThreatEvent` interface of HoneyNetService. -/
structure ThreatEvent where
  id : String
  timestampMs : Int
  type : String
  severity : String
  description : String
  source : String
  blocked : Bool
deriving DecidableEq

/-- `HoneyNetService.logThreat`: push the threat onto the stored list and
then `splice` away everything but the last 100 entries. -/
def logThreat (threats : List ThreatEvent) (t : ThreatEvent) : List ThreatEvent :=
  let l := threats ++ [t]
  if 100 < l.length then l.drop (l.length - 100) else l

/-- `MobileHoneypot` interface of HoneyNetService (`content: any` is
modelled as a string, the shape the initializer stores). -/
structure MobileHoneypot where
  id : String
  type : String
  name : String
  content : String
  createdMs : Int
  triggered : Bool
  triggerCount : Nat
deriving DecidableEq

/-- `HoneyNetService.triggerRandomHoneypot`: pick a random honeypot among
the not-yet-triggered ones, mark it triggered and bump its counter. The
random pick over the filtered array is modelled by the index `j` of an
untriggered honeypot in the stored list; a `j` that is out of range or
points at a triggered honeypot models the no-selection case (source: the
filtered list is empty, so nothing happens). -/
def triggerRandomHoneypot (hps : List MobileHoneypot) (j : Nat) :
    List MobileHoneypot :=
  if h : j < hps.length then
    let hp := hps.get ⟨j, h⟩
    if hp.triggered then hps
    else hps.set j { hp with triggered := true, triggerCount := hp.triggerCount + 1 }
  else hps

/-! ## QuantumService (src/client/mobile/src/services/QuantumService.ts) -/

/-- The `quantumCharacteristics` object of a quantum attack signature. -/
structure QuantumCharacteristics where
  coherenceTime : Option ℚ
  entanglementDegree : Option ℚ
  quantumVolume : Option ℚ
  errorRate : Option ℚ
deriving DecidableEq

/-- `QuantumAttackSignature` interface. The union-typed `signatureType` is
modelled as the string the runtime value carries. -/
structure QuantumAttackSignature where
  signatureId : String
  signatureType : String
  confidence : ℚ
  detectedAtMs : Int
  attackVector : String
  quantumCharacteristics : QuantumCharacteristics
  countermeasures : List String
deriving DecidableEq

/-- The `keyStrength` union type of `QuantumHoneypot`. -/
inductive KeyStrength
  | pq256
  | pq512
  | pq1024
deriving DecidableEq

/-- `QuantumKey` interface. -/
structure QuantumKey where
  keyId : String
  algorithm : String
  keySize : Nat
  publicKey : String
  privateKey : String
  createdAtMs : Int
  expiresAtMs : Int
  usageCount : Nat
  isCompromised : Bool
deriving DecidableEq

/-- `QuantumHoneypot` interface. `metadata` is modelled by its
`quantumNoise` entry, the only metadata key the verified operations ever
write. -/
structure QuantumHoneypot where
  honeypotId : String
  quantumState : String
  entanglementPartner : Option String
  keyStrength : KeyStrength
  lastKeyRotationMs : Int
  attacksDetected : Nat
  quantumSignatures : List QuantumAttackSignature
  isActive : Bool
  location : String
  metadataNoise : Option ℚ
deriving DecidableEq

/-- The service-level state of `QuantumServiceClass` read and written by
the verified operations (`systemStatus` is a derived summary that none of
the claims reads, so it is not carried). -/
structure QuantumServiceState where
  quantumHoneypots : List QuantumHoneypot
  quantumKeys : List QuantumKey
  attackSignatures : List QuantumAttackSignature
deriving DecidableEq

/-- The `attackData: any` argument of `detectQuantumAttack`, holding the
fields `detectQuantumIndicators` and `analyzeQuantumAttack` read. -/
structure AttackData where
  coherenceTime : Option ℚ
  entanglementDegree : Option ℚ
  quantumVolume : Option ℚ
  vector : Option String
deriving DecidableEq

/-- Environment of one `detectQuantumAttack` call: the `Date.now()` value,
the `Math.random()` draws for the signature id, the quantum-noise value,
and the random key material per algorithm name. -/
structure QEnv where
  nowMs : Int
  rand : String
  noise : ℚ
  keyPair : String → String × String

/-- The result object of `QuantumService.detectQuantumIndicators`. -/
structure QuantumIndicators where
  isQuantumAttack : Bool
  attackType : String
  confidence : ℚ
  characteristics : QuantumCharacteristics
deriving DecidableEq

/-- `QuantumService.detectQuantumIndicators`. JavaScript truthiness makes
each `attackData.x && attackData.x > bound` guard equivalent to `x`
being present and strictly above the bound. -/
def detectQuantumIndicators (ad : AttackData) : QuantumIndicators :=
  let i0 : QuantumIndicators :=
    { isQuantumAttack := false, attackType := "quantum_brute_force",
      confidence := 0,
      characteristics :=
        { coherenceTime := none, entanglementDegree := none,
          quantumVolume := none, errorRate := none } }
  let i1 :=
    match ad.coherenceTime with
    | some c =>
      if 0 < c then
        { i0 with isQuantumAttack := true, confidence := i0.confidence + 0.3,
                  characteristics := { i0.characteristics with coherenceTime := some c } }
      else i0
    | none => i0
  let i2 :=
    match ad.entanglementDegree with
    | some e =>
      if 0 < e then
        { i1 with isQuantumAttack := true, confidence := i1.confidence + 0.4,
                  characteristics := { i1.characteristics with entanglementDegree := some e } }
      else i1
    | none => i1
  match ad.quantumVolume with
  | some v =>
    if 1 < v then
      let i3 :=
        { i2 with isQuantumAttack := true, confidence := i2.confidence + 0.3,
                  characteristics := { i2.characteristics with quantumVolume := some v } }
      if 1000 < v then { i3 with attackType := "shor_algorithm" }
      else if 100 < v then { i3 with attackType := "grover_search" }
      else i3
    else i2
  | none => i2

/-- `QuantumService.getCountermeasures` lookup table with its
`|| ['general_quantum_defense']` default. -/
def getCountermeasures (attackType : String) : List String :=
  if attackType = "quantum_brute_force" then
    ["key_rotation", "increased_key_size", "quantum_noise_injection"]
  else if attackType = "shor_algorithm" then
    ["post_quantum_crypto", "key_rotation", "quantum_entanglement"]
  else if attackType = "grover_search" then
    ["doubled_key_size", "quantum_error_correction", "decoherence_induction"]
  else if attackType = "quantum_mitm" then
    ["quantum_authentication", "entanglement_verification", "quantum_signatures"]
  else if attackType = "decoherence_attack" then
    ["error_correction", "redundant_encoding", "environmental_isolation"]
  else ["general_quantum_defense"]

/-- `QuantumService.analyzeQuantumAttack`: build a signature when the
indicators flag a quantum attack, else `null`. `attackData.vector ||
'unknown'` is falsy for the empty string. -/
def analyzeQuantumAttack (nowMs : Int) (rand : String) (ad : AttackData) :
    Option QuantumAttackSignature :=
  let ind := detectQuantumIndicators ad
  if ind.isQuantumAttack then
    some { signatureId := "qsig_" ++ toString nowMs ++ "_" ++ rand
           signatureType := ind.attackType
           confidence := ind.confidence
           detectedAtMs := nowMs
           attackVector :=
             (match ad.vector with
              | some v => if v = "" then "unknown" else v
              | none => "unknown")
           quantumCharacteristics := ind.characteristics
           countermeasures := getCountermeasures ind.attackType }
  else none

/-- Apply `f` to the first list element satisfying `p` (the in-place
mutation of an object obtained through `Array.prototype.find`). -/
def updateFirst (p : α → Bool) (f : α → α) : List α → List α
  | [] => []
  | a :: l => if p a then f a :: l else a :: updateFirst p f l

/-- `QuantumService.getKeySize`. -/
def getKeySize : KeyStrength → Nat
  | KeyStrength.pq256 => 256
  | KeyStrength.pq512 => 512
  | KeyStrength.pq1024 => 1024

/-- `QuantumService.generateQuantumKeys` for one honeypot: discard its old
keys and push one fresh key per algorithm, key material supplied by the
environment. -/
def generateQuantumKeys (env : QEnv) (hp : QuantumHoneypot)
    (keys : List QuantumKey) : List QuantumKey :=
  let kept := keys.filter (fun k => !(k.keyId.startsWith hp.honeypotId))
  kept ++ (["kyber", "dilithium", "falcon"].map fun alg =>
    { keyId := hp.honeypotId ++ "_" ++ alg ++ "_" ++ toString env.nowMs
      algorithm := alg
      keySize := getKeySize hp.keyStrength
      publicKey := (env.keyPair alg).1
      privateKey := (env.keyPair alg).2
      createdAtMs := env.nowMs
      expiresAtMs := env.nowMs + 24 * 60 * 60 * 1000
      usageCount := 0
      isCompromised := false })

/-- `QuantumService.rotateQuantumKeys` for a given honeypot id: stamp a
new `lastKeyRotation` on every matching honeypot (and, through the object
reference, on the first honeypot matching its entanglement partner) and
regenerate their keys. -/
def rotateQuantumKeys (env : QEnv) (hid : String) (s : QuantumServiceState) :
    QuantumServiceState :=
  let targets := s.quantumHoneypots.filter (fun h => h.honeypotId == hid)
  let partnerIds := targets.filterMap (fun h => h.entanglementPartner)
  let hps1 := s.quantumHoneypots.map (fun h =>
      if h.honeypotId == hid then { h with lastKeyRotationMs := env.nowMs } else h)
  let hps2 := partnerIds.foldl (fun l pid =>
      updateFirst (fun h => h.honeypotId == pid)
        (fun h => { h with lastKeyRotationMs := env.nowMs }) l) hps1
  let keys1 := targets.foldl (fun ks h => generateQuantumKeys env h ks) s.quantumKeys
  let partners := partnerIds.filterMap
      (fun pid => s.quantumHoneypots.find? (fun h => h.honeypotId == pid))
  let keys2 := partners.foldl (fun ks h => generateQuantumKeys env h ks) keys1
  { s with quantumHoneypots := hps2, quantumKeys := keys2 }

/-- `QuantumService.induceDecoherence` on one honeypot object. -/
def induceDecoherence (h : QuantumHoneypot) : QuantumHoneypot :=
  if h.quantumState = "superposition" ∨ h.quantumState = "entangled" then
    { h with quantumState := "decoherent" }
  else h

/-- `QuantumService.triggerQuantumCountermeasures`: run the recognized
countermeasures of the signature against the honeypot (unknown ones only
log). -/
def triggerQuantumCountermeasures (env : QEnv) (hid : String)
    (cms : List String) (s : QuantumServiceState) : QuantumServiceState :=
  cms.foldl (fun st cm =>
    if cm = "key_rotation" then rotateQuantumKeys env hid st
    else if cm = "quantum_noise_injection" then
      { st with quantumHoneypots :=
          (updateFirst (fun h => h.honeypotId == hid)
            (fun h => { h with metadataNoise := some env.noise })
            st.quantumHoneypots) }
    else if cm = "decoherence_induction" then
      { st with quantumHoneypots :=
          (updateFirst (fun h => h.honeypotId == hid) induceDecoherence
            st.quantumHoneypots) }
    else st) s

/-- `QuantumService.detectQuantumAttack`: find the honeypot, analyze the
attack; on a produced signature push it onto the honeypot, increment the
honeypot's `attacksDetected` by one, record the signature globally and run
the countermeasures. -/
def detectQuantumAttack (env : QEnv) (hid : String) (ad : AttackData)
    (s : QuantumServiceState) :
    Option QuantumAttackSignature × QuantumServiceState :=
  match s.quantumHoneypots.find? (fun h => h.honeypotId == hid) with
  | none => (none, s)
  | some _ =>
    match analyzeQuantumAttack env.nowMs env.rand ad with
    | none => (none, s)
    | some sig =>
      let s1 := { s with quantumHoneypots :=
          (updateFirst (fun h => h.honeypotId == hid)
            (fun h => { h with
                quantumSignatures := h.quantumSignatures ++ [sig],
                attacksDetected := h.attacksDetected + 1 })
            s.quantumHoneypots) }
      let s2 := { s1 with attackSignatures := s1.attackSignatures ++ [sig] }
      (some sig, triggerQuantumCountermeasures env hid sig.countermeasures s2)

/-- The deduplicating loop of `QuantumService.mergeAttackSignatures`:
push each network signature whose id is not yet present. -/
def mergeSignaturesLoop (sigs net : List QuantumAttackSignature) :
    List QuantumAttackSignature :=
  net.foldl (fun acc sig =>
    if acc.any (fun s => s.signatureId == sig.signatureId) then acc
    else acc ++ [sig]) sigs

/-- `QuantumService.mergeAttackSignatures`: deduplicating merge followed by
the count limit (`slice(-500)` once the list exceeds 1000 entries). -/
def mergeAttackSignatures (sigs net : List QuantumAttackSignature) :
    List QuantumAttackSignature :=
  let merged := mergeSignaturesLoop sigs net
  if 1000 < merged.length then merged.drop (merged.length - 500) else merged

/-! ## SwarmService (src/unnamed/part_006) -/

/-- `PheromoneTrail` interface. -/
structure PheromoneTrail where
  trailId : String
  trailType : String
  strength : ℚ
  location : String
  createdBy : String
  timestampMs : Int
  decayRate : ℚ
  metadata : List (String × String)
deriving DecidableEq

/-- The service-level state of `SwarmServiceClass`. Agents, tasks and the
swarm-intelligence record are carried by identifier projections: the
verified operation never reads their contents, only the frame property
that they are untouched matters. -/
structure SwarmState where
  localAgentId : Option String
  nearbyAgentIds : List String
  activeTaskIds : List String
  pheromoneTrails : List PheromoneTrail
  isConnectedToSwarm : Bool
deriving DecidableEq

/-- `SwarmService.calculateDecayedStrength`:
`strength * Math.exp(-decayRate * ageInHours)` with the age in hours taken
from `Date.now()`. `Math.exp` is modelled by the environment-supplied
function `mexp` (its numeric properties are irrelevant to the claims). -/
def calculateDecayedStrength (mexp : ℚ → ℚ) (nowMs : Int)
    (trail : PheromoneTrail) : ℚ :=
  trail.strength * mexp (-(trail.decayRate * ((nowMs - trail.timestampMs : Int) / 3600000 : ℚ)))

/-- The decayed copy of a trail produced inside `getPheromoneTrails`. -/
def decayedTrail (mexp : ℚ → ℚ) (nowMs : Int) (trail : PheromoneTrail) :
    PheromoneTrail :=
  { trail with strength := calculateDecayedStrength mexp nowMs trail }

/-- `SwarmService.getPheromoneTrails`: copy the stored trails, apply decay,
drop trails at strength 0.01 or below, apply the optional type and
location filters, and sort by descending strength (the comparator
`(a, b) => b.strength - a.strength`). The stored state is returned
untouched: the source only ever operates on the copy. -/
def getPheromoneTrails (mexp : ℚ → ℚ) (nowMs : Int)
    (trailType : Option String) (location : Option String) (s : SwarmState) :
    List PheromoneTrail × SwarmState :=
  let trails := (s.pheromoneTrails.map (decayedTrail mexp nowMs)).filter
      (fun t => decide ((1 : ℚ)/100 < t.strength))
  let trails :=
    match trailType with
    | some ty => trails.filter (fun (t : PheromoneTrail) => t.trailType == ty)
    | none => trails
  let trails :=
    match location with
    | some loc => trails.filter (fun (t : PheromoneTrail) => t.location == loc)
    | none => trails
  (trails.mergeSort (fun a b => decide (b.strength ≤ a.strength)), s)

/-! ## Event-loop interleaving model for `detectQuantumAttack` (C2)

JavaScript executes each `async` function as a sequence of synchronous
segments separated by `await` points; segments of concurrently running
invocations interleave, but every segment runs atomically. Relative to one
honeypot's `attacksDetected` counter, a segment of `detectQuantumAttack`
either performs the single `honeypot.attacksDetected += 1` statement
(`QAction.incr` — the segment that runs after `analyzeQuantumAttack`
resolves) or leaves the counter untouched (`QAction.other` — finding the
honeypot, analyzing, countermeasures, status update, persistence and
reporting never write `attacksDetected`). -/

/-- An atomic event-loop segment, abstracted to its effect on one
honeypot's `attacksDetected` counter. -/
inductive QAction
  | incr
  | other
deriving DecidableEq

/-- Run a fully interleaved schedule of segments against the counter. -/
def execActions : List QAction → Nat → Nat
  | [], c => c
  | QAction.incr :: t, c => execActions t (c + 1)
  | QAction.other :: t, c => execActions t c

/-- The segment trace of one `detectQuantumAttack` invocation that finds
the honeypot and produces a signature: find + analyze, then the atomic
push/increment segment, then countermeasures and the persistence /
reporting tail. -/
def detectTrace : List QAction :=
  [QAction.other, QAction.incr, QAction.other, QAction.other]

/-- `Interleave ls t`: the schedule `t` is an order-preserving merge of
the per-invocation segment traces `ls`, each step taking the next segment
of whichever invocation the event loop runs next. -/
inductive Interleave : List (List QAction) → List QAction → Prop
  | nil : Interleave [] []
  | take (pre post : List (List QAction)) (a : QAction) (rest t : List QAction) :
      Interleave (pre ++ rest :: post) t →
      Interleave (pre ++ (a :: rest) :: post) (a :: t)
  | done (pre post : List (List QAction)) (t : List QAction) :
      Interleave (pre ++ post) t → Interleave (pre ++ [] :: post) t

/-! ## Concrete values used by counterexamples and witnesses -/

/-- A fixed threat report payload (used to exhibit that the id does not
depend on the payload). -/
def sampleThreatData : ThreatData :=
  { threatType := "malware", severity := "high", sourceIp := "10.0.0.1",
    targetIp := "10.0.0.2", signature := "sig", metadata := [] }

/-- A fresh blockchain service state. -/
def emptyBlockchainState : BlockchainState :=
  { localChain := [], pendingThreatRecords := [], isConnected := false,
    nodeId := "node" }

/-- A block sitting in the local chain only. -/
def cexLocalBlock : Block :=
  { blockNumber := 99, blockHash := "local", previousHash := "",
    timestampMs := 0, threatRecords := [], minerId := "m", nonce := 0,
    merkleRoot := "" }

/-- First block of a two-block network chain (its own hash is never
checked by `validateChain`). -/
def cexNetBlock0 : Block :=
  { blockNumber := 0, blockHash := "h0", previousHash := "",
    timestampMs := 1, threatRecords := [], minerId := "m", nonce := 0,
    merkleRoot := "" }

/-- The second network block before its hash is filled in. -/
def cexNetBlock1Base : Block :=
  { blockNumber := 1, blockHash := "", previousHash := "h0",
    timestampMs := 2, threatRecords := [], minerId := "m", nonce := 0,
    merkleRoot := "" }

/-- The second network block, carrying its correct stored hash (the hash
function never reads `blockHash`, so the fixpoint is immediate). -/
def cexNetBlock1 : Block :=
  { cexNetBlock1Base with blockHash := calculateBlockHash cexNetBlock1Base }

/-- The oldest entry of a full threat log. -/
def cexThreatA : ThreatEvent :=
  { id := "victim", timestampMs := 0, type := "malware", severity := "low",
    description := "", source := "", blocked := false }

/-- Filler entry of a full threat log. -/
def cexThreatB : ThreatEvent :=
  { id := "fill", timestampMs := 1, type := "network", severity := "low",
    description := "", source := "", blocked := false }

/-- A new incoming threat event. -/
def cexThreatC : ThreatEvent :=
  { id := "new", timestampMs := 2, type := "phishing", severity := "high",
    description := "", source := "", blocked := true }

/-- A stored threat log holding exactly 100 entries. -/
def cexThreatLog : List ThreatEvent := cexThreatA :: List.replicate 99 cexThreatB

/-- A stored attack signature. -/
def cexSig1 : QuantumAttackSignature :=
  { signatureId := "s1", signatureType := "quantum_brute_force",
    confidence := 0, detectedAtMs := 0, attackVector := "unknown",
    quantumCharacteristics :=
      { coherenceTime := none, entanglementDegree := none,
        quantumVolume := none, errorRate := none },
    countermeasures := [] }

/-- A network attack signature with a fresh id. -/
def cexSig2 : QuantumAttackSignature :=
  { cexSig1 with signatureId := "s2" }

/-- A pending record whose network submission will succeed. -/
def cexRecA : ThreatRecord :=
  { id := "a", threatType := "malware", severity := "low",
    sourceIp := "1.1.1.1", targetIp := "2.2.2.2", timestampMs := 0,
    signature := "sa", metadata := [] }

/-- A pending record whose network submission will throw. -/
def cexRecB : ThreatRecord :=
  { cexRecA with id := "b", signature := "sb" }

/-- A connected blockchain state with two pending records. -/
def cexPendingState : BlockchainState :=
  { localChain := [], pendingThreatRecords := [cexRecA, cexRecB],
    isConnected := true, nodeId := "n" }

/-- Network oracle: submission succeeds exactly for the record with
id `a`. -/
def cexOk : ThreatRecord → Bool := fun r => r.id == "a"

/-- Claim-side relation for C5 on quantum honeypots: identifier preserved
and `attacksDetected` unchanged (the countermeasure phase of
`detectQuantumAttack` never touches the counter). -/
def IdCounterEq (a b : QuantumHoneypot) : Prop :=
  b.honeypotId = a.honeypotId ∧ b.attacksDetected = a.attacksDetected

/-- Claim-side relation for C5 on quantum honeypots: identifier preserved,
`attacksDetected` never decreased and incremented by at most one. -/
def IdCounterStep (a b : QuantumHoneypot) : Prop :=
  b.honeypotId = a.honeypotId
    ∧ a.attacksDetected ≤ b.attacksDetected
    ∧ b.attacksDetected ≤ a.attacksDetected + 1

/-- Claim-side relation for C5 on mobile honeypots: identifier preserved,
`triggerCount` never decreased and incremented by at most one. -/
def IdTriggerStep (a b : MobileHoneypot) : Prop :=
  b.id = a.id
    ∧ a.triggerCount ≤ b.triggerCount
    ∧ b.triggerCount ≤ a.triggerCount + 1

/-! ## Theorems -/

/-- C6: `calculateThreatPoints` is the deterministic, state-free function
`Math.round(base * multiplier)` over the claimed severity table (default
10) and threat-type multiplier table (default 1.0). The embedding is a
plain function of the two arguments — the source method touches no service
state — so equal inputs trivially yield equal outputs. -/
theorem calculateThreatPoints_matches_claim_tables :
    ∀ threatType severity : String,
      calculateThreatPoints threatType severity =
        mathRound (claimSeverityBase severity * claimTypeMultiplier threatType) := by
  intro threatType severity
  rfl

/-- C10: `unlockAchievement` is idempotent per achievement id: a second
unlock of the same achievement changes nothing, and a first unlock appends
the achievement exactly once and adds its points exactly once. -/
theorem unlockAchievement_idempotent_per_id :
    ∀ (ps : PlayerStats) (a : Achievement),
      unlockAchievement (unlockAchievement (some ps) a) a
          = unlockAchievement (some ps) a
      ∧ unlockAchievement (some ps) a =
          (if ps.achievements.any (fun x => x.id == a.id) then some ps
           else some { ps with achievements := ps.achievements ++ [a],
                               totalPoints := ps.totalPoints + a.points }) := by
  intro ps a
  refine ⟨?_, rfl⟩
  cases hb : ps.achievements.any (fun x => x.id == a.id) with
  | true => simp [unlockAchievement, hb]
  | false => simp [unlockAchievement, hb, List.any_append]

/-- C1 (amended): the identifier `submitThreatRecord` assigns comes from
`generateThreatId`, a function of the submission time and the random draw
only; it is wholly independent of the report's content, so identical
reports submitted at different instants (or with different draws) receive
different identifiers rather than one shared fingerprint. -/
theorem submitThreatRecord_id_independent_of_content :
    ∀ (nowMs : Int) (rand : String) (d1 d2 : ThreatData)
      (s1 s2 : BlockchainState),
      (submitThreatRecord nowMs rand d1 s1).1.id
        = (submitThreatRecord nowMs rand d2 s2).1.id := by
  intro nowMs rand d1 d2 s1 s2
  rfl

/-- C1 (counterexample): the very same raw threat report, submitted twice
through `submitThreatRecord` (at time 1000 with draw `abc`, then at time
2000 with draw `xyz`), is assigned two different identifiers — the
fingerprint is not determined by the report's fields. -/
theorem submitThreatRecord_id_not_content_determined :
    (submitThreatRecord 1000 "abc" sampleThreatData emptyBlockchainState).1.id
      ≠ (submitThreatRecord 2000 "xyz" sampleThreatData emptyBlockchainState).1.id := by
  decide

/-- C4 (amended): `mergeChains` never edits history in place, but it does
not preserve it either: it either leaves the local chain exactly as it was
or replaces it wholesale by the network chain (when that chain is strictly
longer and validates), dropping any local block that the network chain
does not contain. -/
theorem mergeChains_keep_or_replace :
    ∀ networkBlocks localChain : List Block,
      mergeChains networkBlocks localChain = localChain
      ∨ (mergeChains networkBlocks localChain = networkBlocks
         ∧ localChain.length < networkBlocks.length
         ∧ validateChain networkBlocks = true) := by
  intro net loc
  unfold mergeChains
  by_cases h1 : loc.length < net.length
  · by_cases h2 : validateChain net = true
    · exact Or.inr ⟨by simp [h1, h2], h1, h2⟩
    · exact Or.inl (by simp [h1, h2])
  · exact Or.inl (by simp [h1])

set_option maxRecDepth 100000 in
/-- C4 (counterexample): a local block disappears from `localChain` after
`mergeChains` runs against a longer, valid network chain — syncing does
not only add entries, it can drop previously recorded blocks. -/
theorem mergeChains_drops_local_history :
    cexLocalBlock ∈ [cexLocalBlock]
      ∧ cexLocalBlock ∉ mergeChains [cexNetBlock0, cexNetBlock1] [cexLocalBlock] := by
  decide

theorem validateFrom_iff_chain (prev : Block) (l : List Block) :
    validateFrom prev l = true ↔
      List.Chain' (fun p c => c.previousHash = p.blockHash
        ∧ calculateBlockHash c = c.blockHash) (prev :: l) := by
  induction l generalizing prev with
  | nil => simp [validateFrom]
  | cons b l ih =>
    simp [validateFrom, List.chain'_cons, Bool.and_eq_true, beq_iff_eq,
      ih b, and_assoc]

/-- C9: `validateChain` accepts a chain exactly when every block from
index 1 on links to its predecessor's stored hash and hashes to its own
stored hash; the empty chain and every single-block chain are accepted,
the first block's own stored hash never being verified. -/
theorem validateChain_characterization :
    (∀ chain : List Block,
      validateChain chain = true ↔
        List.Chain' (fun p c => c.previousHash = p.blockHash
          ∧ calculateBlockHash c = c.blockHash) chain)
    ∧ validateChain [] = true
    ∧ (∀ b : Block, validateChain [b] = true) := by
  refine ⟨?_, rfl, fun b => rfl⟩
  intro chain
  cases chain with
  | nil => simp [validateChain]
  | cons b l => simpa [validateChain] using validateFrom_iff_chain b l

set_option maxRecDepth 40000 in
/-- C3 (counterexample): with 100 threats already stored, `logThreat`
removes the oldest stored entry while appending the new one — previously
stored records are not all preserved. -/
theorem logThreat_drops_oldest_entry :
    cexThreatA ∈ cexThreatLog
      ∧ cexThreatA ∉ logThreat cexThreatLog cexThreatC := by
  decide

theorem mem_mergeSignaturesLoop (x : QuantumAttackSignature) :
    ∀ (net sigs : List QuantumAttackSignature),
      x ∈ sigs → x ∈ mergeSignaturesLoop sigs net := by
  intro net
  induction net with
  | nil => intro sigs hx; simpa [mergeSignaturesLoop] using hx
  | cons n ns ih =>
    intro sigs hx
    have hstep : mergeSignaturesLoop sigs (n :: ns)
        = mergeSignaturesLoop
            (if sigs.any (fun s => s.signatureId == n.signatureId) then sigs
             else sigs ++ [n]) ns := rfl
    rw [hstep]
    by_cases h : sigs.any (fun s => s.signatureId == n.signatureId) = true
    · rw [if_pos h]; exact ih sigs hx
    · rw [if_neg h]; exact ih _ (List.mem_append_left _ hx)

/-- C3 (amended): `logThreat` and `mergeAttackSignatures` preserve every
previously stored entry only below their retention caps: `logThreat`
keeps just the most recent 100 threats (so appending to a log of at most
99 preserves everything), and `mergeAttackSignatures` adds unseen network
signatures without dropping stored ones as long as the merged list stays
within 1000 entries (beyond that it keeps only the most recent 500). -/
theorem append_preserves_below_caps :
    (∀ (threats : List ThreatEvent) (t : ThreatEvent),
        threats.length ≤ 99 →
        ∀ x ∈ threats, x ∈ logThreat threats t)
    ∧ (∀ (sigs net : List QuantumAttackSignature),
        (mergeSignaturesLoop sigs net).length ≤ 1000 →
        ∀ x ∈ sigs, x ∈ mergeAttackSignatures sigs net) := by
  constructor
  · intro threats t hlen x hx
    have hle : ¬ (100 < (threats ++ [t]).length) := by
      simp only [List.length_append, List.length_singleton]
      omega
    unfold logThreat
    simp only []
    rw [if_neg hle]
    exact List.mem_append_left _ hx
  · intro sigs net hlen x hx
    have hx2 := mem_mergeSignaturesLoop x net sigs hx
    have hle : ¬ (1000 < (mergeSignaturesLoop sigs net).length) := by omega
    unfold mergeAttackSignatures
    simp only []
    rw [if_neg hle]
    exact hx2

/-- Witness for C3 (amended) at a small concrete log and signature list. -/
theorem append_preserves_below_caps_witness :
    cexThreatB ∈ logThreat [cexThreatB] cexThreatC
      ∧ cexSig1 ∈ mergeAttackSignatures [cexSig1] [cexSig2] := by
  constructor
  · exact append_preserves_below_caps.1 [cexThreatB] cexThreatC (by decide)
      cexThreatB (by decide)
  · exact append_preserves_below_caps.2 [cexSig1] [cexSig2] (by decide)
      cexSig1 (by decide)

theorem submitLoop_eq_filter (ok : ThreatRecord → Bool) :
    ∀ (snap cur : List ThreatRecord),
      snap.foldl
          (fun cur record =>
            if ok record then cur.filter (fun r => !(r.id == record.id)) else cur)
          cur
        = cur.filter
            (fun r => !(snap.any (fun rec => ok rec && r.id == rec.id))) := by
  intro snap
  induction snap with
  | nil => intro cur; simp
  | cons a snap ih =>
    intro cur
    rw [List.foldl_cons]
    cases h : ok a with
    | false =>
      simp only [h, Bool.false_eq_true, if_false, ih, List.any_cons,
        Bool.false_and, Bool.false_or]
    | true =>
      simp only [h, if_true, ih, List.filter_filter, List.any_cons,
        Bool.true_and, Bool.not_or, Bool.and_comm]

/-- C7: after `submitPendingRecords` (when connected, with the pending ids
pairwise distinct as `generateThreatId` produces them), the pending list
is exactly the stored list restricted to the records whose network
submission threw, kept in order and unchanged; consequently a record is
absent from the pending list if and only if its submission succeeded —
failed records stay queued for the next sync and are never silently
dropped. -/
theorem submitPendingRecords_failed_stay_pending :
    ∀ (ok : ThreatRecord → Bool) (s : BlockchainState),
      s.isConnected = true →
      (s.pendingThreatRecords.map (fun r => r.id)).Nodup →
      (submitPendingRecords ok s).pendingThreatRecords
          = s.pendingThreatRecords.filter (fun r => !(ok r))
      ∧ ∀ r ∈ s.pendingThreatRecords,
          (r ∉ (submitPendingRecords ok s).pendingThreatRecords ↔ ok r = true) := by
  intro ok s hconn hnodup
  have hany : ∀ r ∈ s.pendingThreatRecords,
      (s.pendingThreatRecords.any (fun rec => ok rec && r.id == rec.id)) = ok r := by
    intro r hr
    cases hok : ok r with
    | true =>
      exact List.any_eq_true.mpr ⟨r, hr, by simp [hok]⟩
    | false =>
      rw [List.any_eq_false]
      intro rec hrec
      by_cases hid : r.id = rec.id
      · have : rec = r :=
          List.inj_on_of_nodup_map hnodup hrec hr hid.symm
        simp [this, hok]
      · simp [hid]
  have hmain : (submitPendingRecords ok s).pendingThreatRecords
      = s.pendingThreatRecords.filter (fun r => !(ok r)) := by
    unfold submitPendingRecords
    rw [hconn]
    cases hemp : s.pendingThreatRecords.isEmpty with
    | true =>
      have hnil : s.pendingThreatRecords = [] := by
        simpa using hemp
      simp [hnil]
    | false =>
      simp only [Bool.not_true, Bool.false_or, hemp, if_false]
      rw [submitLoop_eq_filter]
      exact List.filter_congr (fun r hr => by rw [hany r hr])
  refine ⟨hmain, ?_⟩
  intro r hr
  rw [hmain]
  constructor
  · intro hnot
    by_contra hok
    have hokf : ok r = false := by
      revert hok; cases ok r <;> simp
    exact hnot (List.mem_filter.mpr ⟨hr, by simp [hokf]⟩)
  · intro hok hmem
    rcases List.mem_filter.mp hmem with ⟨_, hfalse⟩
    simp [hok] at hfalse

/-- Witness for C7 at a connected state with two pending records, one
submission succeeding and one throwing. -/
theorem submitPendingRecords_failed_stay_pending_witness :
    (submitPendingRecords cexOk cexPendingState).pendingThreatRecords
        = cexPendingState.pendingThreatRecords.filter (fun r => !(cexOk r))
      ∧ ∀ r ∈ cexPendingState.pendingThreatRecords,
          (r ∉ (submitPendingRecords cexOk cexPendingState).pendingThreatRecords
            ↔ cexOk r = true) :=
  submitPendingRecords_failed_stay_pending cexOk cexPendingState rfl (by decide)

/-- C8: `getPheromoneTrails` is a pure lookup: the service state (the
stored `pheromoneTrails` and every other field) comes back unchanged, and
the returned list consists exactly of the decayed copies of stored trails
whose decayed strength exceeds 0.01 and which match the optional type and
location filters, arranged in descending strength order. -/
theorem getPheromoneTrails_pure_lookup :
    ∀ (mexp : ℚ → ℚ) (nowMs : Int) (ty loc : Option String) (s : SwarmState),
      (getPheromoneTrails mexp nowMs ty loc s).2 = s
      ∧ (∀ t, t ∈ (getPheromoneTrails mexp nowMs ty loc s).1 ↔
          ((∃ tr ∈ s.pheromoneTrails, t = decayedTrail mexp nowMs tr)
            ∧ 1/100 < t.strength
            ∧ (∀ ty0, ty = some ty0 → t.trailType = ty0)
            ∧ (∀ loc0, loc = some loc0 → t.location = loc0)))
      ∧ List.Pairwise (fun a b => b.strength ≤ a.strength)
          (getPheromoneTrails mexp nowMs ty loc s).1 := by
  intro mexp nowMs ty loc s
  have htrans : ∀ a b c : PheromoneTrail,
      decide (b.strength ≤ a.strength) = true →
      decide (c.strength ≤ b.strength) = true →
      decide (c.strength ≤ a.strength) = true := by
    intro a b c hab hbc
    simp only [decide_eq_true_eq] at *
    exact le_trans hbc hab
  have htotal : ∀ a b : PheromoneTrail,
      (decide (b.strength ≤ a.strength) || decide (a.strength ≤ b.strength))
        = true := by
    intro a b
    rcases le_total a.strength b.strength with h | h <;> simp [h]
  have hbase : ∀ t : PheromoneTrail,
      (t ∈ (s.pheromoneTrails.map (decayedTrail mexp nowMs)).filter
          (fun t => decide ((1 : ℚ)/100 < t.strength))) ↔
        ((∃ tr ∈ s.pheromoneTrails, t = decayedTrail mexp nowMs tr)
          ∧ 1/100 < t.strength) := by
    intro t
    simp only [List.mem_filter, List.mem_map, decide_eq_true_eq]
    constructor
    · rintro ⟨⟨tr, htr, hdec⟩, hstr⟩
      exact ⟨⟨tr, htr, hdec.symm⟩, hstr⟩
    · rintro ⟨⟨tr, htr, hdec⟩, hstr⟩
      exact ⟨⟨tr, htr, hdec.symm⟩, hstr⟩
  refine ⟨?_, ?_, ?_⟩
  · cases ty <;> cases loc <;> rfl
  · intro t
    cases ty with
    | none =>
      cases loc with
      | none =>
        unfold getPheromoneTrails
        rw [List.Perm.mem_iff (List.mergeSort_perm _ _)]
        rw [hbase t]
        constructor
        · rintro ⟨h1, h2⟩
          exact ⟨h1, h2, by simp, by simp⟩
        · rintro ⟨h1, h2, _, _⟩
          exact ⟨h1, h2⟩
      | some b =>
        unfold getPheromoneTrails
        rw [List.Perm.mem_iff (List.mergeSort_perm _ _)]
        rw [List.mem_filter, hbase t]
        constructor
        · rintro ⟨⟨h1, h2⟩, h3⟩
          refine ⟨h1, h2, by simp, ?_⟩
          intro loc0 heq
          cases heq
          exact beq_iff_eq.mp h3
        · rintro ⟨h1, h2, _, h4⟩
          exact ⟨⟨h1, h2⟩, beq_iff_eq.mpr (h4 b rfl)⟩
    | some a =>
      cases loc with
      | none =>
        unfold getPheromoneTrails
        rw [List.Perm.mem_iff (List.mergeSort_perm _ _)]
        rw [List.mem_filter, hbase t]
        constructor
        · rintro ⟨⟨h1, h2⟩, h3⟩
          refine ⟨h1, h2, ?_, by simp⟩
          intro ty0 heq
          cases heq
          exact beq_iff_eq.mp h3
        · rintro ⟨h1, h2, h3, _⟩
          exact ⟨⟨h1, h2⟩, beq_iff_eq.mpr (h3 a rfl)⟩
      | some b =>
        unfold getPheromoneTrails
        rw [List.Perm.mem_iff (List.mergeSort_perm _ _)]
        rw [List.mem_filter, List.mem_filter, hbase t]
        constructor
        · rintro ⟨⟨⟨h1, h2⟩, h3⟩, h4⟩
          refine ⟨h1, h2, ?_, ?_⟩
          · intro ty0 heq
            cases heq
            exact beq_iff_eq.mp h3
          · intro loc0 heq
            cases heq
            exact beq_iff_eq.mp h4
        · rintro ⟨h1, h2, h3, h4⟩
          exact ⟨⟨⟨h1, h2⟩, beq_iff_eq.mpr (h3 a rfl)⟩,
            beq_iff_eq.mpr (h4 b rfl)⟩
  · have hsorted := fun l : List PheromoneTrail =>
      @List.sorted_mergeSort PheromoneTrail
        (fun a b : PheromoneTrail => decide (b.strength ≤ a.strength))
        htrans htotal l
    cases ty <;> cases loc <;>
      · unfold getPheromoneTrails
        exact (hsorted _).imp (fun h => of_decide_eq_true h)

theorem forallTwo_refl {α : Type} (R : α → α → Prop) (hR : ∀ a, R a a) :
    ∀ l : List α, List.Forall₂ R l l := by
  intro l
  induction l with
  | nil => exact List.Forall₂.nil
  | cons a l ih => exact List.Forall₂.cons (hR a) ih

theorem forallTwo_map {α : Type} (R : α → α → Prop) (f : α → α)
    (hf : ∀ a, R a (f a)) :
    ∀ l : List α, List.Forall₂ R l (l.map f) := by
  intro l
  induction l with
  | nil => exact List.Forall₂.nil
  | cons a l ih => exact List.Forall₂.cons (hf a) ih

theorem forallTwo_updateFirst {α : Type} (R : α → α → Prop) (p : α → Bool)
    (f : α → α) (hR : ∀ a, R a a) (hf : ∀ a, R a (f a)) :
    ∀ l : List α, List.Forall₂ R l (updateFirst p f l) := by
  intro l
  induction l with
  | nil => exact List.Forall₂.nil
  | cons a l ih =>
    by_cases h : p a = true
    · rw [show updateFirst p f (a :: l) = f a :: l by simp [updateFirst, h]]
      exact List.Forall₂.cons (hf a) (forallTwo_refl R hR l)
    · rw [show updateFirst p f (a :: l) = a :: updateFirst p f l by
        simp [updateFirst, h]]
      exact List.Forall₂.cons (hR a) ih

theorem forallTwo_comp {α : Type} (R S T : α → α → Prop)
    (h : ∀ a b c, R a b → S b c → T a c) :
    ∀ {l1 l2 l3 : List α},
      List.Forall₂ R l1 l2 → List.Forall₂ S l2 l3 → List.Forall₂ T l1 l3 := by
  intro l1 l2 l3 h12
  induction h12 generalizing l3 with
  | nil => intro h23; cases h23; exact List.Forall₂.nil
  | cons hab hl ih =>
    intro h23
    cases h23 with
    | cons hbc h2 => exact List.Forall₂.cons (h _ _ _ hab hbc) (ih h2)

theorem forallTwo_set {α : Type} (R : α → α → Prop) (hR : ∀ a, R a a) :
    ∀ (l : List α) (j : Nat) (b : α),
      (∀ h : j < l.length, R (l.get ⟨j, h⟩) b) →
      List.Forall₂ R l (l.set j b) := by
  intro l
  induction l with
  | nil => intro j b _; exact List.Forall₂.nil
  | cons a l ih =>
    intro j b hb
    cases j with
    | zero =>
      rw [List.set_cons_zero]
      exact List.Forall₂.cons (hb (by simp)) (forallTwo_refl R hR l)
    | succ j =>
      rw [List.set_cons_succ]
      refine List.Forall₂.cons (hR a) (ih j b ?_)
      intro h
      exact hb (Nat.succ_lt_succ h)

theorem forallTwo_foldl {α β : Type} (R : α → α → Prop)
    (hR : ∀ a, R a a) (hTr : ∀ a b c, R a b → R b c → R a c)
    (step : α → β → α) (hstep : ∀ acc x, R acc (step acc x)) :
    ∀ (xs : List β) (acc : α), R acc (xs.foldl step acc) := by
  intro xs
  induction xs with
  | nil => intro acc; exact hR acc
  | cons x xs ih =>
    intro acc
    rw [List.foldl_cons]
    exact hTr _ _ _ (hstep acc x) (ih (step acc x))


theorem idCounterEq_refl : ∀ a : QuantumHoneypot, IdCounterEq a a :=
  fun _ => ⟨rfl, rfl⟩

theorem idCounterEq_trans : ∀ a b c : QuantumHoneypot,
    IdCounterEq a b → IdCounterEq b c → IdCounterEq a c :=
  fun _ _ _ h1 h2 => ⟨h2.1.trans h1.1, h2.2.trans h1.2⟩

theorem idCounterStep_refl : ∀ a : QuantumHoneypot, IdCounterStep a a :=
  fun _ => ⟨rfl, Nat.le_refl _, Nat.le_succ _⟩

theorem idCounterStep_comp_eq : ∀ a b c : QuantumHoneypot,
    IdCounterStep a b → IdCounterEq b c → IdCounterStep a c := by
  intro a b c h1 h2
  refine ⟨h2.1.trans h1.1, ?_, ?_⟩
  · rw [h2.2]; exact h1.2.1
  · rw [h2.2]; exact h1.2.2

theorem rotateQuantumKeys_counters (env : QEnv) (hid : String)
    (st : QuantumServiceState) :
    List.Forall₂ IdCounterEq st.quantumHoneypots
      (rotateQuantumKeys env hid st).quantumHoneypots := by
  have key : (rotateQuantumKeys env hid st).quantumHoneypots
      = ((st.quantumHoneypots.filter (fun h => h.honeypotId == hid)).filterMap
          (fun h => h.entanglementPartner)).foldl
          (fun l pid => updateFirst (fun h => h.honeypotId == pid)
            (fun h => { h with lastKeyRotationMs := env.nowMs }) l)
          (st.quantumHoneypots.map (fun h =>
            if h.honeypotId == hid then { h with lastKeyRotationMs := env.nowMs }
            else h)) := rfl
  rw [key]
  have hmap : List.Forall₂ IdCounterEq st.quantumHoneypots
      (st.quantumHoneypots.map (fun h =>
        if h.honeypotId == hid then { h with lastKeyRotationMs := env.nowMs }
        else h)) := by
    refine forallTwo_map _ _ ?_ _
    intro a
    split <;> exact ⟨rfl, rfl⟩
  have hfold := forallTwo_foldl (List.Forall₂ IdCounterEq)
    (forallTwo_refl _ idCounterEq_refl)
    (fun l1 l2 l3 h1 h2 => forallTwo_comp _ _ _ idCounterEq_trans h1 h2)
    (fun l pid => updateFirst (fun h => h.honeypotId == pid)
      (fun h => { h with lastKeyRotationMs := env.nowMs }) l)
    (fun acc pid => forallTwo_updateFirst IdCounterEq
      (fun h => h.honeypotId == pid)
      (fun h => { h with lastKeyRotationMs := env.nowMs })
      idCounterEq_refl (fun a => ⟨rfl, rfl⟩) acc)
    ((st.quantumHoneypots.filter (fun h => h.honeypotId == hid)).filterMap
      (fun h => h.entanglementPartner))
    (st.quantumHoneypots.map (fun h =>
      if h.honeypotId == hid then { h with lastKeyRotationMs := env.nowMs }
      else h))
  exact forallTwo_comp _ _ _ idCounterEq_trans hmap hfold

theorem induceDecoherence_counters :
    ∀ a : QuantumHoneypot, IdCounterEq a (induceDecoherence a) := by
  intro a
  unfold induceDecoherence
  split <;> exact ⟨rfl, rfl⟩

theorem triggerQuantumCountermeasures_counters (env : QEnv) (hid : String) :
    ∀ (cms : List String) (st : QuantumServiceState),
      List.Forall₂ IdCounterEq st.quantumHoneypots
        (triggerQuantumCountermeasures env hid cms st).quantumHoneypots := by
  intro cms
  induction cms with
  | nil => intro st; exact forallTwo_refl _ idCounterEq_refl _
  | cons cm cms ih =>
    intro st
    have hstep : List.Forall₂ IdCounterEq st.quantumHoneypots
        (triggerQuantumCountermeasures env hid [cm] st).quantumHoneypots := by
      by_cases h1 : cm = "key_rotation"
      · have key : triggerQuantumCountermeasures env hid [cm] st
            = rotateQuantumKeys env hid st := by
          simp [triggerQuantumCountermeasures, h1]
        rw [key]
        exact rotateQuantumKeys_counters env hid st
      · by_cases h2 : cm = "quantum_noise_injection"
        · have key : (triggerQuantumCountermeasures env hid [cm] st).quantumHoneypots
              = updateFirst (fun h => h.honeypotId == hid)
                  (fun h => { h with metadataNoise := some env.noise })
                  st.quantumHoneypots := by
            simp [triggerQuantumCountermeasures, h1, h2]
          rw [key]
          exact forallTwo_updateFirst IdCounterEq
            (fun h => h.honeypotId == hid)
            (fun h => { h with metadataNoise := some env.noise })
            idCounterEq_refl (fun a => ⟨rfl, rfl⟩) st.quantumHoneypots
        · by_cases h3 : cm = "decoherence_induction"
          · have key : (triggerQuantumCountermeasures env hid [cm] st).quantumHoneypots
                = updateFirst (fun h => h.honeypotId == hid) induceDecoherence
                    st.quantumHoneypots := by
              simp [triggerQuantumCountermeasures, h1, h2, h3]
            rw [key]
            exact forallTwo_updateFirst IdCounterEq
              (fun h => h.honeypotId == hid) induceDecoherence
              idCounterEq_refl induceDecoherence_counters st.quantumHoneypots
          · have key : triggerQuantumCountermeasures env hid [cm] st = st := by
              simp [triggerQuantumCountermeasures, h1, h2, h3]
            rw [key]
            exact forallTwo_refl _ idCounterEq_refl _
    exact forallTwo_comp _ _ _ idCounterEq_trans hstep
      (ih (triggerQuantumCountermeasures env hid [cm] st))

theorem idTriggerStep_refl : ∀ a : MobileHoneypot, IdTriggerStep a a :=
  fun _ => ⟨rfl, Nat.le_refl _, Nat.le_succ _⟩

/-- C5: across `detectQuantumAttack` (including its countermeasure phase)
every honeypot keeps its identifier and its `attacksDetected` counter
never decreases — it grows by at most the single `+= 1` of a detected
signature; likewise `triggerRandomHoneypot` keeps every mobile honeypot's
identifier and only ever increments `triggerCount` by one. Stated
positionally over the whole honeypot list, so it covers every record that
exists before and after the operation. -/
theorem counters_only_increase_ids_stable :
    ∀ (env : QEnv) (hid : String) (ad : AttackData) (s : QuantumServiceState)
      (hps : List MobileHoneypot) (j : Nat),
      List.Forall₂ IdCounterStep s.quantumHoneypots
        (detectQuantumAttack env hid ad s).2.quantumHoneypots
      ∧ List.Forall₂ IdTriggerStep hps (triggerRandomHoneypot hps j) := by
  intro env hid ad s hps j
  constructor
  · unfold detectQuantumAttack
    cases hfind : s.quantumHoneypots.find? (fun h => h.honeypotId == hid) with
    | none =>
      simp only [hfind]
      exact forallTwo_refl _ idCounterStep_refl _
    | some hp0 =>
      cases hana : analyzeQuantumAttack env.nowMs env.rand ad with
      | none =>
        simp only [hfind, hana]
        exact forallTwo_refl _ idCounterStep_refl _
      | some sig =>
        simp only [hfind, hana]
        have h1 : List.Forall₂ IdCounterStep s.quantumHoneypots
            (updateFirst (fun h => h.honeypotId == hid)
              (fun h => { h with
                  quantumSignatures := h.quantumSignatures ++ [sig],
                  attacksDetected := h.attacksDetected + 1 })
              s.quantumHoneypots) :=
          forallTwo_updateFirst IdCounterStep
            (fun h => h.honeypotId == hid)
            (fun h => { h with
                quantumSignatures := h.quantumSignatures ++ [sig],
                attacksDetected := h.attacksDetected + 1 })
            idCounterStep_refl
            (fun a => ⟨rfl, Nat.le_succ _, Nat.le_refl _⟩)
            s.quantumHoneypots
        exact forallTwo_comp _ _ _ idCounterStep_comp_eq h1
          (triggerQuantumCountermeasures_counters env hid sig.countermeasures
            { s with
                quantumHoneypots :=
                  (updateFirst (fun h => h.honeypotId == hid)
                    (fun h => { h with
                        quantumSignatures := h.quantumSignatures ++ [sig],
                        attacksDetected := h.attacksDetected + 1 })
                    s.quantumHoneypots),
                attackSignatures := s.attackSignatures ++ [sig] })
  · unfold triggerRandomHoneypot
    split
    · next h =>
      show List.Forall₂ IdTriggerStep hps
        (if (hps.get ⟨j, h⟩).triggered = true then hps
         else hps.set j
           { hps.get ⟨j, h⟩ with triggered := true, triggerCount := (hps.get ⟨j, h⟩).triggerCount + 1 })
      split
      · exact forallTwo_refl _ idTriggerStep_refl hps
      · exact forallTwo_set IdTriggerStep idTriggerStep_refl hps j _
          (fun _ => ⟨rfl, Nat.le_succ _, Nat.le_refl _⟩)
    · exact forallTwo_refl _ idTriggerStep_refl hps

theorem execActions_add : ∀ (t : List QAction) (c : Nat),
    execActions t c = c + t.count QAction.incr := by
  intro t
  induction t with
  | nil => intro c; simp [execActions]
  | cons a t ih =>
    intro c
    cases a with
    | incr =>
      show execActions t (c + 1) = c + (QAction.incr :: t).count QAction.incr
      rw [ih, List.count_cons]
      simp
      omega
    | other =>
      show execActions t c = c + (QAction.other :: t).count QAction.incr
      rw [ih, List.count_cons]
      simp

theorem interleave_count : ∀ (ls : List (List QAction)) (t : List QAction),
    Interleave ls t →
    t.count QAction.incr = (ls.map (fun l => l.count QAction.incr)).sum := by
  intro ls t h
  induction h with
  | nil => simp
  | take pre post a rest t _ ih =>
    simp only [List.map_append, List.sum_append, List.map_cons,
      List.sum_cons, List.count_cons] at ih ⊢
    omega
  | done pre post t _ ih =>
    simp only [List.map_append, List.sum_append, List.map_cons,
      List.sum_cons, List.count_nil] at ih ⊢
    omega

theorem interleave_append (l : List QAction) (ls : List (List QAction))
    (t : List QAction) (h : Interleave ls t) : Interleave (l :: ls) (l ++ t) := by
  induction l with
  | nil => exact Interleave.done [] ls t h
  | cons a l ih => exact Interleave.take [] ls a l (l ++ t) ih

/-- C2: in the JavaScript event-loop concurrency model, the
`attacksDetected += 1` of `detectQuantumAttack` sits inside a single
atomic synchronous segment, so any interleaved schedule of N concurrent
invocations that each produce a signature (each contributing the segment
trace `detectTrace`) raises the honeypot's counter by exactly N — never
less and never more. -/
theorem concurrent_detect_increments_exactly_n :
    ∀ (ls : List (List QAction)) (t : List QAction) (c : Nat),
      (∀ l ∈ ls, l = detectTrace) → Interleave ls t →
      execActions t c = c + ls.length := by
  intro ls t c hall hint
  rw [execActions_add, interleave_count ls t hint]
  have hsum : (ls.map (fun l => l.count QAction.incr)).sum = ls.length := by
    clear hint
    induction ls with
    | nil => simp
    | cons l ls ih =>
      have hl : l = detectTrace := hall l (by simp)
      have hrest : ∀ l2 ∈ ls, l2 = detectTrace :=
        fun l2 h2 => hall l2 (List.mem_cons_of_mem _ h2)
      simp only [List.map_cons, List.sum_cons, List.length_cons, ih hrest, hl]
      have : detectTrace.count QAction.incr = 1 := by decide
      omega
  rw [hsum]

/-- Witness for C2: two concurrent invocations, scheduled one after the
other, increment the counter from 0 to exactly 2. -/
theorem concurrent_detect_increments_exactly_n_witness :
    execActions (detectTrace ++ (detectTrace ++ [])) 0 = 2 := by
  have h := concurrent_detect_increments_exactly_n
    [detectTrace, detectTrace] (detectTrace ++ (detectTrace ++ [])) 0
    (by intro l hl; rcases List.mem_cons.mp hl with h1 | h1
        · exact h1
        · rcases List.mem_cons.mp h1 with h2 | h2
          · exact h2
          · cases h2)
    (interleave_append _ _ _ (interleave_append _ _ _ Interleave.nil))
  simpa using h
